import Mathlib

/-!
Verification development for an options credit-spread backtester
(`options_pricing_backtest.py`).

The program prices vertical credit spreads with the Black-Scholes formula and
backtests an RSI mean-reversion rule over a daily close-price series.  The
embedding below models:

* prices and credits as rationals (`ℚ`); the external numerical primitives
  used by the source (`np.log`, `np.exp`, `np.sqrt`, `scipy.stats.norm.cdf`)
  are a parameter record `BSLib` of functions `ℚ → ℚ`, so every pipeline
  definition is executable on concrete inputs;
* `NaN` values (undefined RSI from `talib`, undefined rolling volatility)
  as `Option ℚ` with `Option.none` for `NaN`; the float comparisons
  `NaN > 70` / `NaN < 30` are `false`, matching IEEE semantics, and
  arithmetic on `Option.none` propagates `Option.none`;
* dates as day numbers (`Nat`) with `weekday d = d % 7` and residue `4`
  standing for Friday (epoch on a Monday, matching Python's
  `date.weekday()` convention);
* the two unbounded `while` loops of the expiration lookup with explicit
  fuel: `Option.none` models a computation that has not terminated within
  the fuel bound (the Python loops have no bound at all);
* the Python `round(x, k)` builtin (round-half-to-even) as `rhe`, with
  `round10`/`round2` for `round(x, -1)` / `round(x, 2)`;
* Python `list.index` as `idxOfD` (index of the first equal element;
  the source only ever calls it with a value taken from the list itself,
  so the out-of-range fallback value `length` is never reached there);
* the crash of the final report lines (`callDates[15]`, `putDates[15]` raise
  `IndexError` when fewer than 16 candidates exist on a side) as the
  `Option.none` branches at the end of `runBackTest`.

The separate real-valued definitions `callPriceR`/`putPriceR` restate the
pricing formulas over `ℝ` with an abstract normal CDF for the put-call
parity claim, which is a statement about real arithmetic.
-/

/-- Python's `round` builtin to an integer: round half to even. -/
def rhe (x : ℚ) : ℤ :=
  if x - Int.floor x < 1/2 then Int.floor x
  else if 1/2 < x - Int.floor x then Int.floor x + 1
  else if Int.floor x % 2 = 0 then Int.floor x else Int.floor x + 1

/-- Python `round(x, -1)`: round to the nearest multiple of ten. -/
def round10 (x : ℚ) : ℚ := 10 * (rhe (x / 10) : ℚ)

/-- Python `round(x, 2)`: round to the nearest cent. -/
def round2 (x : ℚ) : ℚ := (rhe (x * 100) : ℚ) / 100

/-- Python `list.index`: position of the first element equal to `v`
(the source only calls it with `v` drawn from the list, so the
out-of-range result `length` for a missing value is never reached). -/
def idxOfD {α : Type} [DecidableEq α] (v : α) : List α → Nat
  | [] => 0
  | a :: l => if a = v then 0 else idxOfD v l + 1

/-- The numerical primitives the source imports (`np.log`, `np.exp`,
`np.sqrt`, `scipy.stats.norm.cdf`), abstracted as rational functions. -/
structure BSLib where
  log : ℚ → ℚ
  exp : ℚ → ℚ
  sqrt : ℚ → ℚ
  cdf : ℚ → ℚ

/-- A concrete instantiation of the numerical primitives (each the identity
function), used to run the pipeline on concrete inputs. -/
def lib0 : BSLib := ⟨id, id, id, id⟩

/-- One row of the price table: date, close price, and the externally
computed 14-period RSI value (`Option.none` = `NaN`). -/
structure Bar where
  date : Nat
  close : ℚ
  rsi : Option ℚ

/-- Volatility lookup `Options_Pricing.getVol(self)[date]` by position;
`Option.none` is the `NaN` a too-early row produces. -/
def sigmaAt (vol : List (Option ℚ)) (date : Nat) : Option ℚ :=
  vol.getD date Option.none

/-- The source's `d1`: `(np.log(S / K) + (r + 0.5 * sigma ** 2) * T) / (sigma * np.sqrt(T))`. -/
def d1Q (lib : BSLib) (S K T r sigma : ℚ) : ℚ :=
  (lib.log (S / K) + (r + 1/2 * sigma ^ 2) * T) / (sigma * lib.sqrt T)

/-- The source's `d2`: `(np.log(S / K) + (r - 0.5 * sigma ** 2) * T) / (sigma * np.sqrt(T))`. -/
def d2Q (lib : BSLib) (S K T r sigma : ℚ) : ℚ :=
  (lib.log (S / K) + (r - 1/2 * sigma ^ 2) * T) / (sigma * lib.sqrt T)

/-- One call leg: `S * cdf(d1) - K * np.exp(-r * T) * cdf(d2)`. -/
def callLeg (lib : BSLib) (S K T r sigma : ℚ) : ℚ :=
  S * lib.cdf (d1Q lib S K T r sigma) -
    K * lib.exp (-(r * T)) * lib.cdf (d2Q lib S K T r sigma)

/-- One put leg: `K * np.exp(-r * T) * cdf(-d2) - S * cdf(-d1)`. -/
def putLeg (lib : BSLib) (S K T r sigma : ℚ) : ℚ :=
  K * lib.exp (-(r * T)) * lib.cdf (-(d2Q lib S K T r sigma)) -
    S * lib.cdf (-(d1Q lib S K T r sigma))

/-- Embeds `Options_Pricing.getCallData`: the loop runs twice, with
`K = round(S * 1.03, -1) + bot` for `bot = 0` then `bot = 5`; the result is
`[round(calls[0] - calls[1], 2), strikes[0], strikes[1]]`, i.e.
(credit, near strike, far strike).  The credit is `Option.none` when the
volatility at `date` is `NaN`.  The source performs no input validation and
raises nothing for non-positive `sigma` or `T`; with such inputs the float
code yields non-finite values, which this rational model renders through
Lean's total division (the error-level behaviour — no failure — is what the
claims about validation concern). -/
def getCallData (lib : BSLib) (expT intRate : ℚ) (vol : List (Option ℚ))
    (S : ℚ) (date : Nat) : Option ℚ × ℚ × ℚ :=
  let nearK := round10 (S * (103/100))
  let farK := round10 (S * (103/100)) + 5
  ((sigmaAt vol date).map (fun sigma =>
      round2 (callLeg lib S nearK expT intRate sigma -
        callLeg lib S farK expT intRate sigma)),
   nearK, farK)

/-- Embeds `Options_Pricing.getPutData`: `K = round(S - S * 0.03, -1) - bot`
for `bot = 0` then `bot = 5`; result `(credit, near strike, far strike)`. -/
def getPutData (lib : BSLib) (expT intRate : ℚ) (vol : List (Option ℚ))
    (S : ℚ) (date : Nat) : Option ℚ × ℚ × ℚ :=
  let nearK := round10 (S - S * (3/100))
  let farK := round10 (S - S * (3/100)) - 5
  ((sigmaAt vol date).map (fun sigma =>
      round2 (putLeg lib S nearK expT intRate sigma -
        putLeg lib S farK expT intRate sigma)),
   nearK, farK)

/-- Error type of the pricer the specification describes. -/
inductive PriceErr
  | invalidInput
deriving DecidableEq

/-- Modelled from the spec: the specification's option pricer, which
"fails with InvalidInput if σ ≤ 0 or T ≤ 0" and otherwise evaluates the
call formula.  The source has no such guard; this definition exists to be
compared with `getCallData`. -/
def specCheckedCallPrice (lib : BSLib) (S K T r sigma : ℚ) : Except PriceErr ℚ :=
  if sigma ≤ 0 ∨ T ≤ 0 then Except.error PriceErr.invalidInput
  else Except.ok (callLeg lib S K T r sigma)

/-- Signal classification of a date (the spec's OVERBOUGHT / OVERSOLD / NONE). -/
inductive Signal
  | overbought
  | oversold
  | noSignal
deriving DecidableEq

/-- The float comparison `RSI > c` of the source: `NaN > c` is `false`. -/
def rsiGT (x : Option ℚ) (c : ℚ) : Bool :=
  match x with
  | Option.none => false
  | some v => decide (c < v)

/-- The float comparison `RSI < c` of the source: `NaN < c` is `false`. -/
def rsiLT (x : Option ℚ) (c : ℚ) : Bool :=
  match x with
  | Option.none => false
  | some v => decide (v < c)

/-- The signal the source's `if df["RSI"][i] > 70 ... elif df["RSI"][i] < 30`
branch assigns to a date. -/
def classify (x : Option ℚ) : Signal :=
  if rsiGT x 70 then Signal.overbought
  else if rsiLT x 30 then Signal.oversold
  else Signal.noSignal

/-- The source's `shortList`: dates with `RSI > 70` (these are priced as
call spreads by the later loops). -/
def shortListOf (bars : List Bar) : List Bar :=
  bars.filter (fun b => rsiGT b.rsi 70)

/-- The source's `longList`: dates reaching the `elif` with `RSI < 30`
(priced as put spreads). -/
def longListOf (bars : List Bar) : List Bar :=
  bars.filter (fun b => !(rsiGT b.rsi 70) && rsiLT b.rsi 30)

/-- The loop `while getExp.weekday() != 4: getExp += timedelta(days=1)`.
It needs at most 6 steps, so fuel 7 makes it total. -/
def toFridayGo : Nat → Nat → Nat
  | 0, d => d
  | fuel+1, d => if d % 7 = 4 then d else toFridayGo fuel (d + 1)

/-- Advance a date to the next Friday (identity when already a Friday). -/
def toFriday (d : Nat) : Nat := toFridayGo 7 d

/-- The loop `while getExp not in validDates: getExp += timedelta(days=1)`.
The source's loop is unbounded; `Option.none` means it has not found a
calendar date within `fuel` steps (i.e. the source would still be looping). -/
def advanceToMember (cal : List Nat) : Nat → Nat → Option Nat
  | 0, _ => Option.none
  | fuel+1, d => if d ∈ cal then some d else advanceToMember cal fuel (d + 1)

/-- Expiration resolution for an entry date: `getExp = i + timedelta(days=30)`,
advance to a Friday, then advance until the date is in `validDates`. -/
def resolveExp (cal : List Nat) (entry fuel : Nat) : Option Nat :=
  advanceToMember cal fuel (toFriday (entry + 30))

/-- Close-price lookup `df["Close"][d]` by date. -/
def closeAt (bars : List Bar) (d : Nat) : Option ℚ :=
  (bars.find? (fun b => decide (b.date = d))).map (fun b => b.close)

/-- Embeds one candidate loop of `runBackTest` (the `for i in shortList` /
`for i in longList` blocks): keep dates with `100 < close < 200`, collect the
entry date, the entry close and the close at the resolved expiration.
`Option.none` models the unbounded expiration loop not terminating within
`fuel` (the close lookup at the resolved date always succeeds, since the
resolution loop only stops on a date of the calendar). -/
def candSide (bars : List Bar) (validDates : List Nat) (fuel : Nat) :
    List Bar → Option (List Nat × List ℚ × List ℚ)
  | [] => some ([], [], [])
  | b :: rest =>
    if 100 < b.close ∧ b.close < 200 then
      match resolveExp validDates b.date fuel, candSide bars validDates fuel rest with
      | some expDate, some (ds, ps, eps) =>
        match closeAt bars expDate with
        | some expClose => some (b.date :: ds, b.close :: ps, expClose :: eps)
        | Option.none => Option.none
      | _, _ => Option.none
    else candSide bars validDates fuel rest

/-- The settlement comparison `shortStrike[k] > shortExpPrice[k]` of the
call-side loop (profit when `true`). -/
def callCmp (strike expPx : ℚ) : Bool := decide (expPx < strike)

/-- The settlement comparison `longStrike[k] < longExpPrice[k]` of the
put-side loop (profit when `true`). -/
def putCmp (strike expPx : ℚ) : Bool := decide (strike < expPx)

/-- One iteration of the settlement loop at position `t`:
`i = credits[t]; k = credits.index(i); if cmp(strike[k], expPx[k]): pass
else: credits[k] -= 500`.  The lookup `credits.index(i)` is value-based and
the list is mutated while being iterated, exactly as in the source. -/
def settleOnce (cmp : ℚ → ℚ → Bool) (strike expPx : List ℚ)
    (L : List (Option ℚ)) (t : Nat) : List (Option ℚ) :=
  let v := L.getD t Option.none
  let k := idxOfD v L
  if cmp (strike.getD k 0) (expPx.getD k 0) then L
  else L.set k ((L.getD k Option.none).map (fun c => c - 500))

/-- The settlement loop `for i in credits: ...` — iteration is by position
over a list whose length never changes, reading the current value at each
position. -/
def settleLoop (cmp : ℚ → ℚ → Bool) (strike expPx : List ℚ)
    (L : List (Option ℚ)) : List (Option ℚ) :=
  (List.range L.length).foldl (settleOnce cmp strike expPx) L

/-- The per-trade realized PnL the settlement is meant to produce, starting
at absolute position `k`: credit unchanged on a profit, credit minus the
500 strike width on a loss. -/
def realizedFrom (cmp : ℚ → ℚ → Bool) (strike expPx : List ℚ) :
    Nat → List ℚ → List ℚ
  | _, [] => []
  | k, c :: rest =>
    (if cmp (strike.getD k 0) (expPx.getD k 0) then c else c - 500) ::
      realizedFrom cmp strike expPx (k + 1) rest

/-- Realized PnL list of a credit list, by position. -/
def realizedList (cmp : ℚ → ℚ → Bool) (strike expPx : List ℚ)
    (cs : List ℚ) : List ℚ :=
  realizedFrom cmp strike expPx 0 cs

/-- The credit list after the first `t` settlement steps, assuming every
value lookup resolved to the iteration position (`k` is the absolute
position of an entry, starting at the given offset). -/
def partAdj (cmp : ℚ → ℚ → Bool) (strike expPx : List ℚ) (t : Nat) :
    Nat → List ℚ → List (Option ℚ)
  | _, [] => []
  | k, c :: rest =>
    (if k < t ∧ cmp (strike.getD k 0) (expPx.getD k 0) = false
      then some (c - 500) else some c) ::
      partAdj cmp strike expPx t (k + 1) rest

/-- Addition of two possibly-`NaN` values (`NaN` propagates). -/
def oadd (a b : Option ℚ) : Option ℚ :=
  match a, b with
  | some x, some y => some (x + y)
  | _, _ => Option.none

/-- Python `sum` over a list that may contain `NaN`: `NaN` poisons the sum. -/
def osum : List (Option ℚ) → Option ℚ
  | [] => some 0
  | c :: rest => oadd c (osum rest)

/-- Embeds the call-spread pricing loop `for i in shortPrice[0:15]`:
`w = shortPrice.index(i); Date = validDates.index(callDates[w])`;
the loop appends `callData[0] * 100` to `shortCredit` and `callData[2]`
(the far strike) to `shortStrike`. -/
def priceLoopCall (lib : BSLib) (expT intRate : ℚ) (vol : List (Option ℚ))
    (validDates callDates : List Nat) (shortPrice : List ℚ) :
    List (Option ℚ) × List ℚ :=
  ((shortPrice.take 15).map (fun S =>
      ((getCallData lib expT intRate vol S
          (idxOfD (callDates.getD (idxOfD S shortPrice) 0) validDates)).1).map
        (fun c => c * 100)),
   (shortPrice.take 15).map (fun S =>
      (getCallData lib expT intRate vol S
          (idxOfD (callDates.getD (idxOfD S shortPrice) 0) validDates)).2.2))

/-- Embeds the put-spread pricing loop `for i in longPrice[0:15]`, which
appends `putData[0] * 100` to `longCredit` and `putData[2]` (the far
strike) to `longStrike`. -/
def priceLoopPut (lib : BSLib) (expT intRate : ℚ) (vol : List (Option ℚ))
    (validDates putDates : List Nat) (longPrice : List ℚ) :
    List (Option ℚ) × List ℚ :=
  ((longPrice.take 15).map (fun S =>
      ((getPutData lib expT intRate vol S
          (idxOfD (putDates.getD (idxOfD S longPrice) 0) validDates)).1).map
        (fun c => c * 100)),
   (longPrice.take 15).map (fun S =>
      (getPutData lib expT intRate vol S
          (idxOfD (putDates.getD (idxOfD S longPrice) 0) validDates)).2.2))

/-- The data `runBackTest` computes before its final report string. -/
structure Report where
  callCredits : List (Option ℚ)
  putCredits : List (Option ℚ)
  pnl : Option ℚ
  collateral : ℚ

/-- Embeds `Backtest.runBackTest`.  `Option.none` arises exactly where the
Python run fails to return: an expiration-resolution loop that does not
terminate within `fuel`, or the `IndexError` of the final report lines
(`callDates[0]`, `callDates[15]`, `putDates[0]`, `putDates[15]`), which
require at least 16 qualifying candidates on each side. -/
def runBackTest (lib : BSLib) (expT intRate : ℚ) (bars : List Bar)
    (vol : List (Option ℚ)) (fuel : Nat) : Option Report :=
  let validDates := bars.map (fun b => b.date)
  match candSide bars validDates fuel (shortListOf bars),
        candSide bars validDates fuel (longListOf bars) with
  | some (callDates, shortPrice, shortExpPrice),
    some (putDates, longPrice, longExpPrice) =>
    let pc := priceLoopCall lib expT intRate vol validDates callDates shortPrice
    let pp := priceLoopPut lib expT intRate vol validDates putDates longPrice
    let shortSettled := settleLoop callCmp pc.2 shortExpPrice pc.1
    let longSettled := settleLoop putCmp pp.2 longExpPrice pp.1
    let pnl := oadd (osum shortSettled) (osum longSettled)
    match callDates[0]?, callDates[15]?, putDates[0]?, putDates[15]? with
    | some _, some _, some _, some _ =>
      some ⟨shortSettled, longSettled, pnl,
        (((shortPrice.take 15).length) + ((longPrice.take 15).length)) * 500⟩
    | _, _, _, _ => Option.none
  | _, _ => Option.none

/-- Log return `ln(close_i / close_(i-1))`; `Option.none` (`NaN`) at row 0. -/
def logRetAt (lib : BSLib) (closes : List ℚ) : Nat → Option ℚ
  | 0 => Option.none
  | i+1 =>
    match closes[i+1]?, closes[i]? with
    | some a, some b => some (lib.log (a / b))
    | _, _ => Option.none

/-- Sample standard deviation (pandas `std`, `ddof = 1`). -/
def sampleStd (lib : BSLib) (xs : List ℚ) : ℚ :=
  lib.sqrt ((xs.map (fun x => (x - xs.sum / (xs.length : ℚ)) ^ 2)).sum /
    ((xs.length : ℚ) - 1))

/-- Embeds `Options_Pricing.getVol`: rolling 252-row standard deviation of
the log returns, times `sqrt(252)`; a window reaching row 0 (whose return
is `NaN`) or out of range yields `NaN`. -/
def getVol (lib : BSLib) (closes : List ℚ) : List (Option ℚ) :=
  (List.range closes.length).map (fun i =>
    ((List.range 252).mapM (fun k => logRetAt lib closes (i + k - 251))).map
      (fun xs => sampleStd lib xs * lib.sqrt 252))

/-- `runBackTest` with the volatility series computed from the bars, as the
source does inside `getCallData`/`getPutData`. -/
def runBackTestAuto (lib : BSLib) (expT intRate : ℚ) (bars : List Bar)
    (fuel : Nat) : Option Report :=
  runBackTest lib expT intRate bars (getVol lib (bars.map (fun b => b.close))) fuel

/-- The source's `d1` over the reals. -/
noncomputable def d1R (S K T r sigma : ℝ) : ℝ :=
  (Real.log (S / K) + (r + 1/2 * sigma ^ 2) * T) / (sigma * Real.sqrt T)

/-- The source's `d2` over the reals. -/
noncomputable def d2R (S K T r sigma : ℝ) : ℝ :=
  (Real.log (S / K) + (r - 1/2 * sigma ^ 2) * T) / (sigma * Real.sqrt T)

/-- The call-price formula of `getCallData` over the reals, with an abstract
normal CDF `Phi`. -/
noncomputable def callPriceR (Phi : ℝ → ℝ) (S K T r sigma : ℝ) : ℝ :=
  S * Phi (d1R S K T r sigma) - K * Real.exp (-(r * T)) * Phi (d2R S K T r sigma)

/-- The put-price formula of `getPutData` over the reals. -/
noncomputable def putPriceR (Phi : ℝ → ℝ) (S K T r sigma : ℝ) : ℝ :=
  K * Real.exp (-(r * T)) * Phi (-(d2R S K T r sigma)) -
    S * Phi (-(d1R S K T r sigma))

/-- A concrete function satisfying `Phi d + Phi (-d) = 1`, used to
instantiate the parity theorem. -/
noncomputable def halfCdf : ℝ → ℝ := fun _ => 1/2

/-- A two-bar price series: one overbought entry at date 0 (close 150,
RSI 80) and its resolved expiration date 32 (the first Friday at least 30
days later). -/
def bars2 : List Bar := [⟨0, 150, some 80⟩, ⟨32, 150, Option.none⟩]

/-- Volatility series for `bars2` (defined everywhere, value 1). -/
def vol2 : List (Option ℚ) := [some 1, some 1]

/-! ### Helper lemmas -/

theorem rhe_dist (x : ℚ) : |(rhe x : ℚ) - x| ≤ 1/2 := by
  have hf : (Int.floor x : ℚ) ≤ x := Int.floor_le x
  have hc : x < Int.floor x + 1 := Int.lt_floor_add_one x
  unfold rhe
  split_ifs with h1 h2 h3
  · rw [abs_sub_comm, abs_of_nonneg (by linarith)]
    linarith
  · push_cast
    rw [abs_of_nonneg (by linarith)]
    linarith
  · rw [abs_sub_comm, abs_of_nonneg (by linarith)]
    linarith
  · push_cast
    rw [abs_of_nonneg (by linarith)]
    linarith

theorem round10_dist (x : ℚ) : |round10 x - x| ≤ 5 := by
  have h := rhe_dist (x / 10)
  unfold round10
  have h2 : 10 * (rhe (x/10) : ℚ) - x = 10 * ((rhe (x/10) : ℚ) - x/10) := by ring
  rw [h2, abs_mul]
  have h10 : |(10:ℚ)| = 10 := by norm_num
  rw [h10]
  linarith

theorem round10_mul10 (x : ℚ) : ∃ m : ℤ, round10 x = 10 * (m : ℚ) :=
  ⟨rhe (x/10), rfl⟩

theorem idxOfD_eq {α : Type} [DecidableEq α] :
    ∀ (L : List α) (t : Nat) (v : α), L[t]? = some v →
      (∀ j, j < t → L[j]? ≠ some v) → idxOfD v L = t
  | [], t, v, hv, _ => by simp at hv
  | a :: l, 0, v, hv, _ => by
    simp at hv
    simp [idxOfD, hv]
  | a :: l, t+1, v, hv, hne => by
    have ha : a ≠ v := by
      intro h
      exact hne 0 (Nat.succ_pos t) (by simp [h])
    simp only [idxOfD, if_neg ha, Nat.add_right_cancel_iff]
    exact idxOfD_eq l t v (by simpa using hv) (fun j hj => by
      have := hne (j+1) (Nat.succ_lt_succ hj)
      simpa using this)

theorem getElem?_eq_getD {α : Type} (l : List α) (d : α) (n : Nat)
    (h : n < l.length) : l[n]? = some (l.getD n d) := by
  rw [List.getD_eq_getElem?_getD]
  cases hx : l[n]? with
  | none => exact absurd (List.getElem?_eq_none_iff.mp hx) (by omega)
  | some a => rfl

theorem partAdj_getElem? (cmp : ℚ → ℚ → Bool) (s e : List ℚ) (t : Nat) :
    ∀ (cs : List ℚ) (k i : Nat),
      (partAdj cmp s e t k cs)[i]? = (cs[i]?).map (fun c =>
        if k + i < t ∧ cmp (s.getD (k+i) 0) (e.getD (k+i) 0) = false
        then some (c - 500) else some c)
  | [], k, i => by simp [partAdj]
  | c :: rest, k, 0 => by simp [partAdj]
  | c :: rest, k, i+1 => by
    have h : k + (i+1) = (k+1) + i := by omega
    simp only [partAdj, List.getElem?_cons_succ, h]
    exact partAdj_getElem? cmp s e t rest (k+1) i

theorem partAdj_getElem?0 (cmp : ℚ → ℚ → Bool) (s e : List ℚ) (t : Nat)
    (cs : List ℚ) (i : Nat) :
    (partAdj cmp s e t 0 cs)[i]? = (cs[i]?).map (fun c =>
      if i < t ∧ cmp (s.getD i 0) (e.getD i 0) = false
      then some (c - 500) else some c) := by
  rw [partAdj_getElem?]
  simp

theorem partAdj_length (cmp : ℚ → ℚ → Bool) (s e : List ℚ) (t : Nat) :
    ∀ (cs : List ℚ) (k : Nat), (partAdj cmp s e t k cs).length = cs.length
  | [], _ => rfl
  | c :: rest, k => by
    simp [partAdj, partAdj_length cmp s e t rest (k+1)]

theorem partAdj_zero (cmp : ℚ → ℚ → Bool) (s e : List ℚ) :
    ∀ (cs : List ℚ) (k : Nat), partAdj cmp s e 0 k cs = cs.map some
  | [], _ => rfl
  | c :: rest, k => by
    simp [partAdj, partAdj_zero cmp s e rest (k+1)]

theorem realizedFrom_getElem? (cmp : ℚ → ℚ → Bool) (s e : List ℚ) :
    ∀ (cs : List ℚ) (k i : Nat),
      (realizedFrom cmp s e k cs)[i]? = (cs[i]?).map (fun c =>
        if cmp (s.getD (k+i) 0) (e.getD (k+i) 0) then c else c - 500)
  | [], k, i => by simp [realizedFrom]
  | c :: rest, k, 0 => by simp [realizedFrom]
  | c :: rest, k, i+1 => by
    have h : k + (i+1) = (k+1) + i := by omega
    simp only [realizedFrom, List.getElem?_cons_succ, h]
    exact realizedFrom_getElem? cmp s e rest (k+1) i

theorem partAdj_full (cmp : ℚ → ℚ → Bool) (s e : List ℚ) :
    ∀ (cs : List ℚ) (k t : Nat), k + cs.length ≤ t →
      partAdj cmp s e t k cs = (realizedFrom cmp s e k cs).map some
  | [], _, _, _ => rfl
  | c :: rest, k, t, h => by
    have hk : k < t := by
      simp only [List.length_cons] at h
      omega
    have hrec := partAdj_full cmp s e rest (k+1) t (by
      simp only [List.length_cons] at h
      omega)
    simp only [partAdj, realizedFrom, List.map_cons, hrec]
    cases hc : cmp (s.getD k 0) (e.getD k 0) with
    | false => simp [hk]
    | true => simp

theorem settleOnce_partAdj (cmp : ℚ → ℚ → Bool) (s e : List ℚ) (cs : List ℚ)
    (hD : ∀ i j, i < j → j < cs.length →
      cs.getD j 0 ≠ cs.getD i 0 ∧ cs.getD j 0 ≠ cs.getD i 0 - 500)
    (t : Nat) (ht : t < cs.length) :
    settleOnce cmp s e (partAdj cmp s e t 0 cs) t = partAdj cmp s e (t+1) 0 cs := by
  have hlen : (partAdj cmp s e t 0 cs).length = cs.length :=
    partAdj_length cmp s e t cs 0
  have hvt : (partAdj cmp s e t 0 cs)[t]? = some (some (cs.getD t 0)) := by
    rw [partAdj_getElem?0, getElem?_eq_getD cs 0 t ht]
    have hnot : ¬ (t < t) := by omega
    simp [hnot]
  have hv : (partAdj cmp s e t 0 cs).getD t Option.none = some (cs.getD t 0) := by
    rw [List.getD_eq_getElem?_getD, hvt]
    rfl
  have hk : idxOfD (some (cs.getD t 0)) (partAdj cmp s e t 0 cs) = t := by
    apply idxOfD_eq _ t _ hvt
    intro j hj
    have hjlen : j < cs.length := lt_trans hj ht
    rw [partAdj_getElem?0, getElem?_eq_getD cs 0 j hjlen]
    have h1 := (hD j t hj ht).1
    have h2 := (hD j t hj ht).2
    by_cases hcond : j < t ∧ cmp (s.getD j 0) (e.getD j 0) = false
    · simp only [Option.map_some', if_pos hcond]
      intro hcontra
      simp only [Option.some.injEq] at hcontra
      exact h2 hcontra.symm
    · simp only [Option.map_some', if_neg hcond]
      intro hcontra
      simp only [Option.some.injEq] at hcontra
      exact h1 hcontra.symm
  simp only [settleOnce]
  rw [hv, hk, hv]
  cases hc : cmp (s.getD t 0) (e.getD t 0) with
  | true =>
    simp only [hc, if_pos trivial, if_true]
    apply List.ext_getElem?
    intro n
    rw [partAdj_getElem?0, partAdj_getElem?0]
    cases hx : cs[n]? with
    | none => rfl
    | some a =>
      simp only [Option.map_some']
      have hiff : (n < t ∧ cmp (s.getD n 0) (e.getD n 0) = false) ↔
          (n < t + 1 ∧ cmp (s.getD n 0) (e.getD n 0) = false) := by
        constructor
        · rintro ⟨hlt, hcf⟩
          exact ⟨by omega, hcf⟩
        · rintro ⟨hlt, hcf⟩
          refine ⟨?_, hcf⟩
          rcases Nat.lt_or_ge n t with h | h
          · exact h
          · have : n = t := by omega
            rw [this] at hcf
            rw [hc] at hcf
            exact absurd hcf (by simp)
      rw [if_congr hiff rfl rfl]
  | false =>
    simp only [hc, Bool.false_eq_true, if_false]
    apply List.ext_getElem?
    intro n
    by_cases hn : n = t
    · subst hn
      rw [List.getElem?_set_self (by rw [partAdj_length]; omega)]
      rw [partAdj_getElem?0, getElem?_eq_getD cs 0 n ht]
      have hcond : n < n + 1 ∧ cmp (s.getD n 0) (e.getD n 0) = false :=
        ⟨by omega, hc⟩
      simp only [Option.map_some', if_pos hcond]
    · rw [List.getElem?_set_ne (fun h => hn h.symm)]
      rw [partAdj_getElem?0, partAdj_getElem?0]
      cases hx : cs[n]? with
      | none => rfl
      | some a =>
        simp only [Option.map_some']
        have hiff : (n < t ∧ cmp (s.getD n 0) (e.getD n 0) = false) ↔
            (n < t + 1 ∧ cmp (s.getD n 0) (e.getD n 0) = false) := by
          constructor
          · rintro ⟨hlt, hcf⟩
            exact ⟨by omega, hcf⟩
          · rintro ⟨hlt, hcf⟩
            exact ⟨by omega, hcf⟩
        rw [if_congr hiff rfl rfl]

theorem settleFold (cmp : ℚ → ℚ → Bool) (s e : List ℚ) (cs : List ℚ)
    (hD : ∀ i j, i < j → j < cs.length →
      cs.getD j 0 ≠ cs.getD i 0 ∧ cs.getD j 0 ≠ cs.getD i 0 - 500) :
    ∀ (t : Nat), t ≤ cs.length →
      (List.range t).foldl (settleOnce cmp s e) (cs.map some) =
        partAdj cmp s e t 0 cs
  | 0, _ => by
    simp [partAdj_zero]
  | t+1, h => by
    rw [List.range_succ, List.foldl_append]
    rw [settleFold cmp s e cs hD t (by omega)]
    simp only [List.foldl_cons, List.foldl_nil]
    exact settleOnce_partAdj cmp s e cs hD t (by omega)

theorem settleLoop_eq (cmp : ℚ → ℚ → Bool) (s e : List ℚ) (cs : List ℚ)
    (hD : ∀ i j, i < j → j < cs.length →
      cs.getD j 0 ≠ cs.getD i 0 ∧ cs.getD j 0 ≠ cs.getD i 0 - 500) :
    settleLoop cmp s e (cs.map some) = (realizedList cmp s e cs).map some := by
  unfold settleLoop realizedList
  rw [List.length_map]
  rw [settleFold cmp s e cs hD cs.length le_rfl]
  exact partAdj_full cmp s e cs 0 cs.length (by omega)

theorem osum_map_some : ∀ (l : List ℚ), osum (l.map some) = some l.sum
  | [] => by simp [osum]
  | c :: rest => by
    simp [osum, oadd, osum_map_some rest]

theorem toFriday_ge (d : Nat) : d ≤ toFriday d := by
  simp only [toFriday, toFridayGo]
  split_ifs <;> omega

theorem toFriday_mod (d : Nat) : toFriday d % 7 = 4 := by
  simp only [toFriday, toFridayGo]
  split_ifs <;> omega

theorem advanceToMember_spec (cal : List Nat) :
    ∀ (fuel d e : Nat), advanceToMember cal fuel d = some e →
      e ∈ cal ∧ d ≤ e ∧ ∀ x ∈ cal, d ≤ x → e ≤ x
  | 0, d, e, h => by simp [advanceToMember] at h
  | fuel+1, d, e, h => by
    by_cases hd : d ∈ cal
    · simp [advanceToMember, hd] at h
      subst h
      exact ⟨hd, le_rfl, fun x _ hx => hx⟩
    · simp [advanceToMember, hd] at h
      obtain ⟨h1, h2, h3⟩ := advanceToMember_spec cal fuel (d+1) e h
      refine ⟨h1, by omega, fun x hx hdx => ?_⟩
      have hne : d ≠ x := by
        intro hcontra
        rw [hcontra] at hd
        exact hd hx
      exact h3 x hx (by omega)

theorem rsiGT_classify (x : Option ℚ) :
    rsiGT x 70 = decide (classify x = Signal.overbought) := by
  cases x with
  | none => simp [rsiGT, classify, rsiLT]
  | some v =>
    by_cases h : (70:ℚ) < v
    · simp [rsiGT, classify, rsiLT, h]
    · by_cases h2 : v < 30 <;> simp [rsiGT, classify, rsiLT, h, h2]

theorem longPred_classify (x : Option ℚ) :
    (!(rsiGT x 70) && rsiLT x 30) = decide (classify x = Signal.oversold) := by
  cases x with
  | none => simp [rsiGT, classify, rsiLT]
  | some v =>
    by_cases h : (70:ℚ) < v
    · have h2 : ¬ (v < 30) := by linarith
      simp [rsiGT, classify, rsiLT, h, h2]
    · by_cases h2 : v < 30 <;> simp [rsiGT, classify, rsiLT, h, h2]

/-! ### Claim theorems -/

/-- Claim C6 (confirmed): for every valid input with `S > 0`, `K > 0`,
`T > 0`, `σ > 0`, the call and put prices computed by the pricer's formulas
satisfy put-call parity `call − put = S − K·exp(−r·T)` exactly over real
arithmetic, given that the CDF satisfies `Φ(d) + Φ(−d) = 1`. -/
theorem putCallParity (Phi : ℝ → ℝ) (hPhi : ∀ d : ℝ, Phi d + Phi (-d) = 1)
    (S K T r sigma : ℝ) (hS : 0 < S) (hK : 0 < K) (hT : 0 < T)
    (hsig : 0 < sigma) :
    callPriceR Phi S K T r sigma - putPriceR Phi S K T r sigma =
      S - K * Real.exp (-(r * T)) := by
  have h1 := hPhi (d1R S K T r sigma)
  have h2 := hPhi (d2R S K T r sigma)
  simp only [callPriceR, putPriceR]
  linear_combination S * h1 - K * Real.exp (-(r * T)) * h2

/-- Witness for C6: parity at `Φ = halfCdf`, `S = K = T = σ = 1`, `r = 0`. -/
theorem putCallParity_witness :
    callPriceR halfCdf 1 1 1 0 1 - putPriceR halfCdf 1 1 1 0 1 =
      1 - 1 * Real.exp (-(0 * 1)) :=
  putCallParity halfCdf (fun d => by norm_num [halfCdf]) 1 1 1 0 1
    one_pos one_pos one_pos one_pos

/-- Claim C8 (confirmed): signal classification uses strict inequalities:
`RSI > 70` is OVERBOUGHT (a call-spread candidate list entry), `RSI < 30` is
OVERSOLD (a put-spread candidate), and everything else — including exactly 70
and exactly 30 — is no signal and produces no candidate; the source's
`shortList`/`longList` are exactly the bars classified OVERBOUGHT/OVERSOLD. -/
theorem signalStrictThresholds :
    (∀ v : ℚ, classify (some v) = Signal.overbought ↔ 70 < v) ∧
    (∀ v : ℚ, classify (some v) = Signal.oversold ↔ v < 30) ∧
    classify (some 70) = Signal.noSignal ∧
    classify (some 30) = Signal.noSignal ∧
    (∀ bars : List Bar, shortListOf bars =
      bars.filter (fun b => decide (classify b.rsi = Signal.overbought))) ∧
    (∀ bars : List Bar, longListOf bars =
      bars.filter (fun b => decide (classify b.rsi = Signal.oversold))) := by
  refine ⟨?_, ?_, by norm_num [classify, rsiGT, rsiLT], by norm_num [classify, rsiGT, rsiLT], ?_, ?_⟩
  · intro v
    by_cases h : (70:ℚ) < v
    · simp [classify, rsiGT, rsiLT, h]
    · by_cases h2 : v < 30 <;> simp [classify, rsiGT, rsiLT, h, h2]
  · intro v
    by_cases h : (70:ℚ) < v
    · have h2 : ¬ (v < 30) := by linarith
      simp [classify, rsiGT, rsiLT, h, h2]
    · by_cases h2 : v < 30 <;> simp [classify, rsiGT, rsiLT, h, h2]
  · intro bars
    exact List.filter_congr (fun b _ => rsiGT_classify b.rsi)
  · intro bars
    exact List.filter_congr (fun b _ => longPred_classify b.rsi)

/-- Witness for C8: RSI 71 is OVERBOUGHT, RSI exactly 70 is no signal. -/
theorem signalStrictThresholds_witness :
    classify (some 71) = Signal.overbought ∧
    classify (some 70) = Signal.noSignal :=
  ⟨(signalStrictThresholds.1 71).mpr (by norm_num),
   signalStrictThresholds.2.2.1⟩

/-- Claim C10 (confirmed): a date whose RSI value is undefined (`NaN`) makes
both threshold comparisons false, is classified as no signal, and never
enters the candidate lists. -/
theorem nanRsiNoCandidate (bars : List Bar) (b : Bar)
    (hb : b.rsi = Option.none) :
    rsiGT b.rsi 70 = false ∧ rsiLT b.rsi 30 = false ∧
    classify b.rsi = Signal.noSignal ∧
    b ∉ shortListOf bars ∧ b ∉ longListOf bars := by
  refine ⟨by rw [hb]; rfl, by rw [hb]; rfl, by rw [hb]; rfl, ?_, ?_⟩
  · intro hmem
    have h2 := (List.mem_filter.mp hmem).2
    rw [hb] at h2
    simp [rsiGT] at h2
  · intro hmem
    have h2 := (List.mem_filter.mp hmem).2
    rw [hb] at h2
    simp [rsiGT, rsiLT] at h2

/-- Witness for C10: the bar at date 32 of `bars2` has `NaN` RSI and is in
neither candidate list. -/
theorem nanRsiNoCandidate_witness :
    rsiGT (Bar.rsi ⟨32, 150, Option.none⟩) 70 = false ∧
    rsiLT (Bar.rsi ⟨32, 150, Option.none⟩) 30 = false ∧
    classify (Bar.rsi ⟨32, 150, Option.none⟩) = Signal.noSignal ∧
    (⟨32, 150, Option.none⟩ : Bar) ∉ shortListOf bars2 ∧
    (⟨32, 150, Option.none⟩ : Bar) ∉ longListOf bars2 :=
  nanRsiNoCandidate bars2 ⟨32, 150, Option.none⟩ rfl

/-- Claim C4 (corrected): whenever the expiration resolver terminates it
returns the first trading-calendar date on or after the first Friday at
least 30 calendar days past the entry (hence at least 30 days out, on or
after a Friday, and present in the calendar); but the source imposes no
bound at all and never fails — see the counterexample for the absent
14-day bound. -/
theorem resolveExpCharacterization (cal : List Nat) (entry fuel e : Nat)
    (h : resolveExp cal entry fuel = some e) :
    e ∈ cal ∧ entry + 30 ≤ e ∧ toFriday (entry + 30) ≤ e ∧
    toFriday (entry + 30) % 7 = 4 ∧
    (∀ x ∈ cal, toFriday (entry + 30) ≤ x → e ≤ x) := by
  obtain ⟨h1, h2, h3⟩ := advanceToMember_spec cal fuel (toFriday (entry + 30)) e h
  exact ⟨h1, le_trans (toFriday_ge (entry + 30)) h2, h2,
    toFriday_mod (entry + 30), h3⟩

/-- Witness for C4: entry 0 on the calendar `[0, 32]` resolves to 32. -/
theorem resolveExpCharacterization_witness :
    32 ∈ [0, 32] ∧ 0 + 30 ≤ 32 ∧ toFriday (0 + 30) ≤ 32 ∧
    toFriday (0 + 30) % 7 = 4 ∧
    (∀ x ∈ [0, 32], toFriday (0 + 30) ≤ x → 32 ≤ x) :=
  resolveExpCharacterization [0, 32] 0 40 32 (by decide)

/-- Counterexample for C4: with entry 0 and calendar `[0, 60]`, the target
Friday is day 32, yet the resolver happily advances 28 days (beyond any
14-day bound) and returns day 60 instead of failing with
NoExpirationFound. -/
theorem resolveExpNoBound_cex :
    resolveExp [0, 60] 0 40 = some 60 ∧ toFriday (0 + 30) = 32 ∧
    32 + 14 < 60 := by
  refine ⟨by decide, by decide, by decide⟩

/-- Claim C5 (corrected): the source pricer performs no input validation at
all: whenever the volatility value at the date is present — including
`σ ≤ 0` and `T ≤ 0` — both `getCallData` and `getPutData` evaluate the
formula and return a numeric credit; no InvalidInput failure exists. -/
theorem pricerNeverFails (lib : BSLib) (expT intRate : ℚ)
    (vol : List (Option ℚ)) (S : ℚ) (date : Nat)
    (h : (sigmaAt vol date).isSome = true) :
    ((getCallData lib expT intRate vol S date).1).isSome = true ∧
    ((getPutData lib expT intRate vol S date).1).isSome = true := by
  cases hx : sigmaAt vol date with
  | none => rw [hx] at h; exact absurd h (by simp)
  | some sig =>
    constructor
    · show ((sigmaAt vol date).map _).isSome = true
      rw [hx]
      rfl
    · show ((sigmaAt vol date).map _).isSome = true
      rw [hx]
      rfl

/-- Witness for C5: at `σ = 0` and `T = 0` (both invalid per the spec) the
pricer still returns numeric credits. -/
theorem pricerNeverFails_witness :
    ((getCallData lib0 0 0 [some 0] 130 0).1).isSome = true ∧
    ((getPutData lib0 0 0 [some 0] 130 0).1).isSome = true :=
  pricerNeverFails lib0 0 0 [some 0] 130 0 rfl

/-- Counterexample for C5: at `σ = 0` the source pricer returns a numeric
credit (it does not fail), while the pricer the spec describes fails with
InvalidInput on the same inputs. -/
theorem pricerNoValidation_cex :
    ((getCallData lib0 1 0 [some 0] 130 0).1).isSome = true ∧
    specCheckedCallPrice lib0 130 130 1 0 0 =
      Except.error PriceErr.invalidInput := by
  constructor
  · rfl
  · norm_num [specCheckedCallPrice]

/-- Claim C7 (corrected): for every spot `S` the spread constructor picks
the CALL near strike as `S × 1.03` rounded to the nearest multiple of 10
(within 5 of `S × 1.03` and itself a multiple of 10) with far strike
`near + 5`, and the PUT near strike as `S × 0.97` rounded to the nearest
multiple of 10 with far strike `near − 5`; the quoted credit equals the
near-leg price minus the far-leg price **rounded to the nearest cent**
(the source applies `round(..., 2)` — see the counterexample). -/
theorem spreadConstruction (lib : BSLib) (expT intRate : ℚ)
    (vol : List (Option ℚ)) (S : ℚ) (date : Nat) :
    (∃ m : ℤ, (getCallData lib expT intRate vol S date).2.1 = 10 * (m : ℚ)) ∧
    |(getCallData lib expT intRate vol S date).2.1 - S * (103/100)| ≤ 5 ∧
    (getCallData lib expT intRate vol S date).2.2 =
      (getCallData lib expT intRate vol S date).2.1 + 5 ∧
    (getCallData lib expT intRate vol S date).1 = (sigmaAt vol date).map
      (fun sigma => round2
        (callLeg lib S ((getCallData lib expT intRate vol S date).2.1)
            expT intRate sigma -
         callLeg lib S ((getCallData lib expT intRate vol S date).2.2)
            expT intRate sigma)) ∧
    (∃ m : ℤ, (getPutData lib expT intRate vol S date).2.1 = 10 * (m : ℚ)) ∧
    |(getPutData lib expT intRate vol S date).2.1 - S * (97/100)| ≤ 5 ∧
    (getPutData lib expT intRate vol S date).2.2 =
      (getPutData lib expT intRate vol S date).2.1 - 5 ∧
    (getPutData lib expT intRate vol S date).1 = (sigmaAt vol date).map
      (fun sigma => round2
        (putLeg lib S ((getPutData lib expT intRate vol S date).2.1)
            expT intRate sigma -
         putLeg lib S ((getPutData lib expT intRate vol S date).2.2)
            expT intRate sigma)) := by
  refine ⟨round10_mul10 (S * (103/100)), ?_, rfl, rfl,
    round10_mul10 (S - S * (3/100)), ?_, rfl, rfl⟩
  · show |round10 (S * (103/100)) - S * (103/100)| ≤ 5
    exact round10_dist (S * (103/100))
  · show |round10 (S - S * (3/100)) - S * (97/100)| ≤ 5
    have h2 : round10 (S - S * (3/100)) - S * (97/100) =
        round10 (S - S * (3/100)) - (S - S * (3/100)) := by ring
    rw [h2]
    exact round10_dist (S - S * (3/100))

/-- Witness for C7 at concrete inputs (spot 130). -/
theorem spreadConstruction_witness :
    (∃ m : ℤ, (getCallData lib0 1 0 [some 1] 130 0).2.1 = 10 * (m : ℚ)) ∧
    |(getCallData lib0 1 0 [some 1] 130 0).2.1 - 130 * (103/100)| ≤ 5 ∧
    (getCallData lib0 1 0 [some 1] 130 0).2.2 =
      (getCallData lib0 1 0 [some 1] 130 0).2.1 + 5 ∧
    (getCallData lib0 1 0 [some 1] 130 0).1 = (sigmaAt [some 1] 0).map
      (fun sigma => round2
        (callLeg lib0 130 ((getCallData lib0 1 0 [some 1] 130 0).2.1)
            1 0 sigma -
         callLeg lib0 130 ((getCallData lib0 1 0 [some 1] 130 0).2.2)
            1 0 sigma)) ∧
    (∃ m : ℤ, (getPutData lib0 1 0 [some 1] 130 0).2.1 = 10 * (m : ℚ)) ∧
    |(getPutData lib0 1 0 [some 1] 130 0).2.1 - 130 * (97/100)| ≤ 5 ∧
    (getPutData lib0 1 0 [some 1] 130 0).2.2 =
      (getPutData lib0 1 0 [some 1] 130 0).2.1 - 5 ∧
    (getPutData lib0 1 0 [some 1] 130 0).1 = (sigmaAt [some 1] 0).map
      (fun sigma => round2
        (putLeg lib0 130 ((getPutData lib0 1 0 [some 1] 130 0).2.1)
            1 0 sigma -
         putLeg lib0 130 ((getPutData lib0 1 0 [some 1] 130 0).2.2)
            1 0 sigma)) :=
  spreadConstruction lib0 1 0 [some 1] 130 0

theorem rhe_low (x : ℚ) (n : ℤ) (hfl : Int.floor x = n) (h1 : x - (n:ℚ) < 1/2) :
    rhe x = n := by
  simp only [rhe, hfl]
  rw [if_pos h1]

theorem rhe_high (x : ℚ) (n : ℤ) (hfl : Int.floor x = n) (h1 : 1/2 < x - (n:ℚ)) :
    rhe x = n + 1 := by
  simp only [rhe, hfl]
  rw [if_neg (by linarith), if_pos h1]

theorem getCallData_credit (lib : BSLib) (expT intRate : ℚ)
    (vol : List (Option ℚ)) (S : ℚ) (date : Nat) :
    (getCallData lib expT intRate vol S date).1 = (sigmaAt vol date).map
      (fun sigma =>
        round2 (callLeg lib S (round10 (S * (103/100))) expT intRate sigma -
          callLeg lib S (round10 (S * (103/100)) + 5) expT intRate sigma)) := rfl

/-- Counterexample for C7: at spot 130 (near 130, far 135, `σ = 1`, `T = 1`,
`r = 0`, identity primitives) the exact leg-price difference is `130/27`,
but the quoted credit is its cent-rounding `4.81`, which differs. -/
theorem creditRounded_cex :
    (getCallData lib0 1 0 [some 1] 130 0).1 = some (481/100) ∧
    callLeg lib0 130 (round10 (130 * (103/100))) 1 0 1 -
      callLeg lib0 130 (round10 (130 * (103/100)) + 5) 1 0 1 = 130/27 ∧
    (481/100 : ℚ) ≠ 130/27 := by
  have hnear : round10 (130 * (103/100) : ℚ) = 130 := by
    have h : rhe ((130 * (103/100) : ℚ) / 10) = 13 :=
      rhe_low _ 13 (by norm_num) (by norm_num)
    simp [round10, h]
    norm_num
  have hlegs : callLeg lib0 130 130 1 0 1 -
      callLeg lib0 130 (130 + 5) 1 0 1 = 130/27 := by
    norm_num [callLeg, d1Q, d2Q, lib0]
  have hr2 : round2 ((130:ℚ)/27) = 481/100 := by
    have h : rhe ((130:ℚ)/27 * 100) = 481 :=
      rhe_low _ 481 (by norm_num) (by norm_num)
    simp [round2, h]
  refine ⟨?_, ?_, by norm_num⟩
  · rw [getCallData_credit]
    have hs : sigmaAt [some 1] 0 = some 1 := rfl
    rw [hs, Option.map_some', hnear, hlegs, hr2]
  · rw [hnear, hlegs]

/-- Claim C3 (corrected): provided the credits on a side are pairwise
distinct and no credit equals an earlier credit minus 500, the settlement
loop adjusts each trade's credit at most once — subtracting exactly 500
from each losing trade and leaving profitable trades unchanged — and the
aggregate equals the exact sum of the per-trade realized PnLs.  Without
that distinctness the value-based `list.index` lookups break the claim
(see the counterexample). -/
theorem settlementExact (cmp : ℚ → ℚ → Bool) (strike expPx cs : List ℚ)
    (hD : ∀ i j, i < j → j < cs.length →
      cs.getD j 0 ≠ cs.getD i 0 ∧ cs.getD j 0 ≠ cs.getD i 0 - 500) :
    settleLoop cmp strike expPx (cs.map some) =
      (realizedList cmp strike expPx cs).map some ∧
    osum (settleLoop cmp strike expPx (cs.map some)) =
      some ((realizedList cmp strike expPx cs).sum) := by
  have h := settleLoop_eq cmp strike expPx cs hD
  exact ⟨h, by rw [h]; exact osum_map_some _⟩

/-- Witness for C3: two trades with credits 600 and 200 (distinct, no
-500 collision), the first losing and the second profitable. -/
theorem settlementExact_witness :
    settleLoop callCmp [10, 30] [20, 20] ([600, 200].map some) =
      (realizedList callCmp [10, 30] [20, 20] [600, 200]).map some ∧
    osum (settleLoop callCmp [10, 30] [20, 20] ([600, 200].map some)) =
      some ((realizedList callCmp [10, 30] [20, 20] [600, 200]).sum) :=
  settlementExact callCmp [10, 30] [20, 20] [600, 200] (by
    intro i j hij hj
    simp only [List.length_cons, List.length_nil] at hj
    have hj1 : j = 1 := by omega
    have hi0 : i = 0 := by omega
    subst hj1
    subst hi0
    norm_num)

/-- Counterexample for C3: with credits `[600, 100]` (note `100 = 600 − 500`)
and trade 0 losing, the mutating value-indexed loop settles trade 0 twice
(600 → −400) and never settles the profitable trade 1; the *claimed*
adjustment would give `[100, 100]` with aggregate 200, while the code
produces `[−400, 100]` with aggregate −300. -/
theorem settlementDoubleAdjust_cex :
    settleLoop callCmp [10, 30] [20, 20] ([600, 100].map some) =
      [some (-400), some 100] ∧
    (realizedList callCmp [10, 30] [20, 20] [600, 100]).map some =
      [some 100, some 100] ∧
    osum (settleLoop callCmp [10, 30] [20, 20] ([600, 100].map some)) =
      some (-300) ∧
    ((realizedList callCmp [10, 30] [20, 20] [600, 100]).sum : ℚ) = 200 := by
  refine ⟨?_, ?_, ?_, ?_⟩ <;>
    norm_num [settleLoop, settleOnce, idxOfD, realizedList, realizedFrom,
      callCmp, osum, oadd, List.range_succ]

theorem idxOfD_map_some (v : ℚ) :
    ∀ (cs : List ℚ), idxOfD (some v) (cs.map some) = idxOfD v cs
  | [] => rfl
  | a :: rest => by
    by_cases h : a = v
    · simp [idxOfD, h]
    · simp [idxOfD, h, idxOfD_map_some v rest]

theorem getD_map_some (cs : List ℚ) (t : Nat) (ht : t < cs.length) :
    (cs.map some).getD t Option.none = some (cs.getD t 0) := by
  rw [List.getD_eq_getElem?_getD, List.getElem?_map, getElem?_eq_getD cs 0 t ht]
  rfl

theorem settleOnce_profit_id (cmp : ℚ → ℚ → Bool) (s e cs : List ℚ)
    (t : Nat) (ht : t < cs.length)
    (hp : cmp (s.getD (idxOfD (cs.getD t 0) cs) 0)
      (e.getD (idxOfD (cs.getD t 0) cs) 0) = true) :
    settleOnce cmp s e (cs.map some) t = cs.map some := by
  simp only [settleOnce]
  rw [getD_map_some cs t ht, idxOfD_map_some (cs.getD t 0) cs]
  rw [if_pos hp]

theorem settleFold_profit_id (cmp : ℚ → ℚ → Bool) (s e cs : List ℚ)
    (hp : ∀ u, u < cs.length → cmp (s.getD (idxOfD (cs.getD u 0) cs) 0)
      (e.getD (idxOfD (cs.getD u 0) cs) 0) = true) :
    ∀ (t : Nat), t ≤ cs.length →
      (List.range t).foldl (settleOnce cmp s e) (cs.map some) = cs.map some
  | 0, _ => by simp
  | t+1, h => by
    rw [List.range_succ, List.foldl_append]
    rw [settleFold_profit_id cmp s e cs hp t (by omega)]
    simp only [List.foldl_cons, List.foldl_nil]
    exact settleOnce_profit_id cmp s e cs t (by omega) (hp t (by omega))

theorem settleLoop_profit_id (cmp : ℚ → ℚ → Bool) (s e cs : List ℚ)
    (hp : ∀ u, u < cs.length → cmp (s.getD (idxOfD (cs.getD u 0) cs) 0)
      (e.getD (idxOfD (cs.getD u 0) cs) 0) = true) :
    settleLoop cmp s e (cs.map some) = cs.map some := by
  unfold settleLoop
  rw [List.length_map]
  exact settleFold_profit_id cmp s e cs hp cs.length le_rfl

theorem idxOfD_positional (ps : List ℚ) (k : Nat) (hk : k < ps.length)
    (hdist : ∀ i j, i < j → j < ps.length → ps.getD i 0 ≠ ps.getD j 0) :
    idxOfD (ps.getD k 0) ps = k := by
  apply idxOfD_eq ps k (ps.getD k 0) (getElem?_eq_getD ps 0 k hk)
  intro j hj
  rw [getElem?_eq_getD ps 0 j (by omega)]
  intro hcontra
  simp only [Option.some.injEq] at hcontra
  exact hdist j k hj hk hcontra

/-- Claim C9 (corrected): the engine correlates trades by value-based list
lookup.  (i) Pricing looks up `shortPrice.index(i)`: two candidates with
equal entry close prices are priced identically — the later with the
earlier one's resolved date.  (ii) Each settlement iteration consults the
strike/expiration data at the first position currently holding the
iterated credit value, so when the first occurrence of every credit value
is profitable the loop changes nothing — in particular a later trade with
a duplicated credit is left unchanged (settled by the earlier trade's
data) even when its own data indicate a loss (see the witness).
(iii) Pairwise-distinct entry close prices make every pricing lookup
resolve to the trade's own position, and (iv) pairwise-distinct credits
with no credit equal to an earlier credit minus 500 make the settlement
positionally faithful.  Credit distinctness alone is neither necessary
(see the counterexample: the mutated list self-heals) nor, without the
minus-500 condition, sufficient. -/
theorem indexAliasing :
    (∀ (lib : BSLib) (expT intRate : ℚ) (vol : List (Option ℚ))
        (validDates callDates : List Nat) (prices : List ℚ) (i j : Nat),
      i < j → j < 15 → j < prices.length →
      prices.getD i 0 = prices.getD j 0 →
        (priceLoopCall lib expT intRate vol validDates callDates prices).1.getD j
            Option.none =
          (priceLoopCall lib expT intRate vol validDates callDates prices).1.getD i
            Option.none ∧
        (priceLoopCall lib expT intRate vol validDates callDates prices).2.getD j 0 =
          (priceLoopCall lib expT intRate vol validDates callDates prices).2.getD i 0) ∧
    (∀ (cmp : ℚ → ℚ → Bool) (s e cs : List ℚ),
      (∀ u, u < cs.length → cmp (s.getD (idxOfD (cs.getD u 0) cs) 0)
        (e.getD (idxOfD (cs.getD u 0) cs) 0) = true) →
      settleLoop cmp s e (cs.map some) = cs.map some) ∧
    (∀ (ps : List ℚ) (k : Nat), k < ps.length →
      (∀ i j, i < j → j < ps.length → ps.getD i 0 ≠ ps.getD j 0) →
      idxOfD (ps.getD k 0) ps = k) ∧
    (∀ (cmp : ℚ → ℚ → Bool) (s e cs : List ℚ),
      (∀ i j, i < j → j < cs.length →
        cs.getD j 0 ≠ cs.getD i 0 ∧ cs.getD j 0 ≠ cs.getD i 0 - 500) →
      settleLoop cmp s e (cs.map some) =
        (realizedList cmp s e cs).map some) := by
  refine ⟨?_, ?_, ?_, ?_⟩
  · intro lib expT intRate vol vd cd ps i j hij hj15 hjlen hpe
    have hilen : i < ps.length := by omega
    have hi15 : i < 15 := by omega
    have hgj : ps[j]? = some (ps.getD j 0) := getElem?_eq_getD ps 0 j hjlen
    have hgi : ps[i]? = some (ps.getD i 0) := getElem?_eq_getD ps 0 i hilen
    constructor
    · show ((ps.take 15).map _).getD j Option.none =
        ((ps.take 15).map _).getD i Option.none
      rw [List.getD_eq_getElem?_getD, List.getD_eq_getElem?_getD,
        List.getElem?_map, List.getElem?_map,
        List.getElem?_take_of_lt hj15, List.getElem?_take_of_lt hi15,
        hgj, hgi, hpe]
    · show ((ps.take 15).map _).getD j 0 = ((ps.take 15).map _).getD i 0
      rw [List.getD_eq_getElem?_getD, List.getD_eq_getElem?_getD,
        List.getElem?_map, List.getElem?_map,
        List.getElem?_take_of_lt hj15, List.getElem?_take_of_lt hi15,
        hgj, hgi, hpe]
  · intro cmp s e cs hp
    exact settleLoop_profit_id cmp s e cs hp
  · intro ps k hk hdist
    exact idxOfD_positional ps k hk hdist
  · intro cmp s e cs hD
    exact settleLoop_eq cmp s e cs hD

/-- Witness for C9: two trades with equal credits where the first is
profitable (strike 30 vs expiration 20); the whole settlement is the
identity, so the second trade is left unchanged even though its own data
(strike 10 vs expiration 25) would be a loss. -/
theorem indexAliasing_witness :
    settleLoop callCmp [30, 10] [20, 25] (([100, 100] : List ℚ).map some) =
      ([100, 100] : List ℚ).map some :=
  indexAliasing.2.1 callCmp [30, 10] [20, 25] [100, 100] (by
    intro u hu
    simp only [List.length_cons, List.length_nil] at hu
    interval_cases u <;> norm_num [idxOfD, callCmp])

/-- Counterexample for C9: equal credits `[100, 100]` with trade 0 losing:
after trade 0's credit drops to −400, the value lookup for the second
iteration finds position 1, so trade 1 is settled against its *own* data
(a profit) — not the earlier trade's data, which would have produced
`[−400, −400]`. -/
theorem indexAliasing_cex :
    settleLoop callCmp [10, 10] [20, 5] [some 100, some 100] =
      [some (-400), some 100] ∧
    settleLoop callCmp [10, 10] [20, 5] [some 100, some 100] ≠
      [some (-400), some (-400)] := by
  have h : settleLoop callCmp [10, 10] [20, 5] [some 100, some 100] =
      [some (-400), some 100] := by
    norm_num [settleLoop, settleOnce, idxOfD, callCmp, List.range_succ]
  refine ⟨h, by rw [h]; norm_num⟩

/-- Claim C1 (corrected): the engine stores `callData[2]`/`putData[2]` — the
FAR strike (`round10(S·1.03) + 5` for calls, `round10(S·0.97) − 5` for
puts) — in `shortStrike`/`longStrike`, and settlement compares the spot at
expiration with that far strike, not the near strike: under the
distinct-credit hypothesis the realized PnL of trade `k` is the credit when
`farStrike > spotAtExpiration` (calls; `<` for puts) and credit − 500
otherwise. -/
theorem settleByFarStrike (lib : BSLib) (expT intRate : ℚ)
    (vol : List (Option ℚ)) (validDates callDates : List Nat)
    (prices expPx cs : List ℚ)
    (hD : ∀ i j, i < j → j < cs.length →
      cs.getD j 0 ≠ cs.getD i 0 ∧ cs.getD j 0 ≠ cs.getD i 0 - 500) :
    (priceLoopCall lib expT intRate vol validDates callDates prices).2 =
      (prices.take 15).map (fun S => round10 (S * (103/100)) + 5) ∧
    (priceLoopPut lib expT intRate vol validDates callDates prices).2 =
      (prices.take 15).map (fun S => round10 (S - S * (3/100)) - 5) ∧
    settleLoop callCmp
        ((priceLoopCall lib expT intRate vol validDates callDates prices).2)
        expPx (cs.map some) =
      (realizedList callCmp
        ((prices.take 15).map (fun S => round10 (S * (103/100)) + 5))
        expPx cs).map some ∧
    settleLoop putCmp
        ((priceLoopPut lib expT intRate vol validDates callDates prices).2)
        expPx (cs.map some) =
      (realizedList putCmp
        ((prices.take 15).map (fun S => round10 (S - S * (3/100)) - 5))
        expPx cs).map some := by
  refine ⟨rfl, rfl, ?_, ?_⟩
  · exact settleLoop_eq callCmp
      ((prices.take 15).map (fun S => round10 (S * (103/100)) + 5)) expPx cs hD
  · exact settleLoop_eq putCmp
      ((prices.take 15).map (fun S => round10 (S - S * (3/100)) - 5)) expPx cs hD

/-- Witness for C1: a single trade, spot 130 at entry, credit 481. -/
theorem settleByFarStrike_witness :
    (priceLoopCall lib0 1 0 [some 1] [0] [0] [130]).2 =
      (([130] : List ℚ).take 15).map (fun S => round10 (S * (103/100)) + 5) ∧
    (priceLoopPut lib0 1 0 [some 1] [0] [0] [130]).2 =
      (([130] : List ℚ).take 15).map (fun S => round10 (S - S * (3/100)) - 5) ∧
    settleLoop callCmp (priceLoopCall lib0 1 0 [some 1] [0] [0] [130]).2
        [132] ([481].map some) =
      (realizedList callCmp
        ((([130] : List ℚ).take 15).map (fun S => round10 (S * (103/100)) + 5))
        [132] [481]).map some ∧
    settleLoop putCmp (priceLoopPut lib0 1 0 [some 1] [0] [0] [130]).2
        [132] ([481].map some) =
      (realizedList putCmp
        ((([130] : List ℚ).take 15).map (fun S => round10 (S - S * (3/100)) - 5))
        [132] [481]).map some :=
  settleByFarStrike lib0 1 0 [some 1] [0] [0] [130] [132] [481] (by
    intro i j hij hj
    simp only [List.length_cons, List.length_nil] at hj
    omega)

/-- Counterexample for C1: spot 130 at entry (near strike 130, far strike
135), spot 132 at expiration, credit received 481.  The claim's near-strike
rule (`130 > 132` fails) predicts a loss with realized PnL `481 − 500 = −19`,
but the engine compares the stored far strike (`135 > 132`) and keeps the
full credit 481. -/
theorem nearStrike_cex :
    (priceLoopCall lib0 1 0 [some 1] [0] [0] [130]).1 = [some 481] ∧
    (priceLoopCall lib0 1 0 [some 1] [0] [0] [130]).2 = [135] ∧
    round10 ((130:ℚ) * (103/100)) = 130 ∧
    settleLoop callCmp (priceLoopCall lib0 1 0 [some 1] [0] [0] [130]).2 [132]
      ((priceLoopCall lib0 1 0 [some 1] [0] [0] [130]).1) = [some 481] ∧
    (realizedList callCmp [round10 ((130:ℚ) * (103/100))] [132] [481]).map some =
      [some (-19)] ∧
    (some (481:ℚ)) ≠ some (-19 : ℚ) := by
  have hnear : round10 (130 * (103/100) : ℚ) = 130 := by
    have h : rhe ((130 * (103/100) : ℚ) / 10) = 13 :=
      rhe_low _ 13 (by norm_num) (by norm_num)
    simp [round10, h]
    norm_num
  have hlegs : callLeg lib0 130 130 1 0 1 -
      callLeg lib0 130 (130 + 5) 1 0 1 = 130/27 := by
    norm_num [callLeg, d1Q, d2Q, lib0]
  have hr2 : round2 ((130:ℚ)/27) = 481/100 := by
    have h : rhe ((130:ℚ)/27 * 100) = 481 :=
      rhe_low _ 481 (by norm_num) (by norm_num)
    simp [round2, h]
  have hnearB : round10 ((1339:ℚ)/10) = 130 := by
    have h : rhe ((1339:ℚ)/10/10) = 13 :=
      rhe_low _ 13 (by norm_num) (by norm_num)
    simp [round10, h]
    norm_num
  have hlegsB : callLeg lib0 130 135 1 0 1 = 5135/27 := by
    norm_num [callLeg, d1Q, d2Q, lib0]
  have hlegsA : callLeg lib0 130 130 1 0 1 = 195 := by
    norm_num [callLeg, d1Q, d2Q, lib0]
  have hcred : (priceLoopCall lib0 1 0 [some 1] [0] [0] [130]).1 = [some 481] := by
    show [((getCallData lib0 1 0 [some 1] 130
      (idxOfD (([0]:List Nat).getD (idxOfD (130:ℚ) [130]) 0) [0])).1).map
        (fun c => c * 100)] = [some 481]
    rw [getCallData_credit]
    norm_num [idxOfD, sigmaAt, hnearB, hlegsA, hlegsB, hr2]
  have hstrike : (priceLoopCall lib0 1 0 [some 1] [0] [0] [130]).2 = [135] := by
    show [round10 ((130:ℚ) * (103/100)) + 5] = [135]
    rw [hnear]
    norm_num
  refine ⟨hcred, hstrike, hnear, ?_, ?_, by norm_num⟩
  · rw [hcred, hstrike]
    norm_num [settleLoop, settleOnce, idxOfD, callCmp, List.range_succ]
  · rw [hnear]
    norm_num [realizedList, realizedFrom, callCmp]

theorem runBackTest_none_of_short (lib : BSLib) (expT intRate : ℚ)
    (bars : List Bar) (vol : List (Option ℚ)) (fuel : Nat)
    (cd : List Nat) (sp sep : List ℚ)
    (hc : candSide bars (bars.map (fun b => b.date)) fuel (shortListOf bars) =
      some (cd, sp, sep))
    (h15 : cd[15]? = (Option.none : Option Nat)) :
    runBackTest lib expT intRate bars vol fuel = Option.none := by
  simp only [runBackTest]
  rw [hc]
  cases hput : candSide bars (bars.map (fun b => b.date)) fuel (longListOf bars) with
  | none => rfl
  | some y =>
    obtain ⟨pd, lp, lep⟩ := y
    dsimp only
    rw [h15]
    cases h0 : cd[0]? with
    | none => rfl
    | some a0 => rfl

theorem runBackTest_none_of_long (lib : BSLib) (expT intRate : ℚ)
    (bars : List Bar) (vol : List (Option ℚ)) (fuel : Nat)
    (pd : List Nat) (lp lep : List ℚ)
    (hp : candSide bars (bars.map (fun b => b.date)) fuel (longListOf bars) =
      some (pd, lp, lep))
    (h15 : pd[15]? = (Option.none : Option Nat)) :
    runBackTest lib expT intRate bars vol fuel = Option.none := by
  simp only [runBackTest]
  cases hcall : candSide bars (bars.map (fun b => b.date)) fuel (shortListOf bars) with
  | none => rfl
  | some y =>
    obtain ⟨cd, sp, sep⟩ := y
    rw [hp]
    dsimp only
    rw [h15]
    cases h0 : cd[0]? with
    | none => rfl
    | some a0 =>
      cases h1 : cd[15]? with
      | none => rfl
      | some a1 =>
        cases h2 : pd[0]? with
        | none => rfl
        | some a2 => rfl

theorem candSide_bars2_short :
    candSide bars2 (bars2.map (fun b => b.date)) 40 (shortListOf bars2) =
      some ([0], [150], [150]) := by
  have hdates : bars2.map (fun b => b.date) = [0, 32] := by
    norm_num [bars2]
  have hshort : shortListOf bars2 = [⟨0, 150, some 80⟩] := by
    norm_num [shortListOf, bars2, rsiGT, List.filter]
  have hresolve : resolveExp [0, 32] 0 40 = some 32 := by decide
  have hclose : closeAt bars2 32 = some 150 := by
    norm_num [closeAt, bars2, List.find?]
  rw [hdates, hshort]
  norm_num [candSide, hresolve, hclose]

/-- Claim C2 (corrected): a run whose input yields fewer than 16 qualifying
call candidates — or fewer than 16 qualifying put candidates — does NOT
complete: the final report lines index `callDates[15]`/`putDates[15]`
(and `[0]`), so the run fails with an IndexError instead of returning a
report.  A report is only possible when both sides have at least 16
qualifying candidates (and every candidate's expiration resolution
terminates). -/
theorem fewCandidatesFail (lib : BSLib) (expT intRate : ℚ) (bars : List Bar)
    (vol : List (Option ℚ)) (fuel : Nat) :
    (∀ (cd : List Nat) (sp sep : List ℚ),
      candSide bars (bars.map (fun b => b.date)) fuel (shortListOf bars) =
        some (cd, sp, sep) → cd.length < 16 →
      runBackTest lib expT intRate bars vol fuel = Option.none) ∧
    (∀ (pd : List Nat) (lp lep : List ℚ),
      candSide bars (bars.map (fun b => b.date)) fuel (longListOf bars) =
        some (pd, lp, lep) → pd.length < 16 →
      runBackTest lib expT intRate bars vol fuel = Option.none) := by
  constructor
  · intro cd sp sep hc hlen
    exact runBackTest_none_of_short lib expT intRate bars vol fuel cd sp sep hc
      (List.getElem?_eq_none (by omega))
  · intro pd lp lep hp hlen
    exact runBackTest_none_of_long lib expT intRate bars vol fuel pd lp lep hp
      (List.getElem?_eq_none (by omega))

/-- Witness for C2: the two-bar input `bars2` has exactly one qualifying
call candidate, and its run indeed returns nothing. -/
theorem fewCandidatesFail_witness :
    runBackTest lib0 1 0 bars2 vol2 40 = Option.none :=
  (fewCandidatesFail lib0 1 0 bars2 vol2 40).1 [0] [150] [150]
    candSide_bars2_short (by norm_num)

/-- Counterexample for C2: `bars2` is structurally valid input (nonempty,
strictly increasing dates, every expiration resolvable), yet the run
completes no report — refuting the claim that inputs with fewer than 16
candidates per side still return a complete report. -/
theorem fewCandidates_cex :
    runBackTest lib0 1 0 bars2 vol2 40 = Option.none ∧
    bars2 ≠ [] ∧
    List.Chain' (fun a b => a < b) (bars2.map (fun b => b.date)) := by
  refine ⟨?_, by simp [bars2], ?_⟩
  · exact runBackTest_none_of_short lib0 1 0 bars2 vol2 40 [0] [150] [150]
      candSide_bars2_short rfl
  · have hdates : bars2.map (fun b => b.date) = [0, 32] := by
      norm_num [bars2]
    rw [hdates]
    norm_num
